import Mathlib

/-!
Verification of the stale-while-revalidate cache engine of this repository.

The embedding below translates the core of src/src/swr.ts (class SWR) and
src/src/cache.ts (class StorageCache) into Lean. RxJS BehaviorSubjects are
modelled by their current value, a stopped flag (set by complete or by
error) and, for the source subject, the stored terminal error, because
reading the value getter of an errored BehaviorSubject throws that error
and calling next on a stopped subject is a no-op. Asynchronous pipelines
are modelled by explicit state-passing functions; JavaScript exceptions and
promise rejections are modelled with Except.
-/

namespace Swr

/-- Restricted model of JavaScript runtime values, enough to express the
truthiness tests the source performs (objects are opaque ids; they are
always truthy). -/
inductive JsVal where
  | undef
  | null
  | bool (b : Bool)
  | num (n : Int)
  | str (s : String)
  | obj (id : Nat)
deriving DecidableEq

/-- JavaScript truthiness: undefined, null, false, 0 and the empty string
are falsy, everything else modelled here is truthy. -/
def truthy : JsVal → Bool
  | .undef => false
  | .null => false
  | .bool b => b
  | .num n => n != 0
  | .str s => s != ""
  | .obj _ => true

/-- CacheItem (src/src/common.ts lines 4-7): a cached datum together with
its absolute expiry instant. -/
structure CacheItem where
  data : JsVal
  expiresAt : Int
deriving DecidableEq

/-- Modelled from the spec: a CacheItem class with a constructor taking
(data, expiresAt) and an isExpired getter is referenced by
src/src/cache.ts (new CacheItem, item.isExpired), and SWR.revalidate calls
this.cache.isExpired, but neither the class nor a StorageCache.isExpired
method is defined under src (common.ts holds only the interface). Spec
section 3 defines isExpired as expiresAt < now(). -/
def CacheItem.isExpired (it : CacheItem) (now : Int) : Bool :=
  decide (it.expiresAt < now)

/-- The three numeric options of the engine (src/src/swr.ts lines 19-24)
with the static defaults of lines 43-47. -/
structure SwrOptions where
  dedupingInterval : Int
  errorRetryInterval : Int
  errorRetryCount : Nat
deriving DecidableEq

/-- Static defaults SWR.options (src/src/swr.ts lines 43-47). -/
def defaultOptions : SwrOptions :=
  { dedupingInterval := 6000, errorRetryInterval := 5000, errorRetryCount := 3 }

/-- A per-call Partial of the options; none models an absent property. -/
structure PartialOptions where
  dedupingInterval : Option Int
  errorRetryInterval : Option Int
  errorRetryCount : Option Nat
deriving DecidableEq

/-- The empty per-call options object. -/
def noOpts : PartialOptions := ⟨none, none, none⟩

/-- Object-spread merge as performed on src/src/swr.ts lines 53 and 102:
a property present in the partial overrides the base. -/
def mergeOptions (base : SwrOptions) (o : PartialOptions) : SwrOptions :=
  { dedupingInterval := o.dedupingInterval.getD base.dedupingInterval,
    errorRetryInterval := o.errorRetryInterval.getD base.errorRetryInterval,
    errorRetryCount := o.errorRetryCount.getD base.errorRetryCount }

/-- A JavaScript exception or promise rejection. -/
inductive JsError where
  | typeError (msg : String)
  | thrown (v : JsVal)
deriving DecidableEq

/-- Per-key cache entry, the Cache record of src/src/cache.ts lines 5-10.
The three BehaviorSubjects are modelled by their current value and their
stopped flag; sourceError records the terminal error of the source subject
(the value getter of an errored BehaviorSubject throws it). The derived
data stream carries no state any claim below depends on. -/
structure Entry where
  sourceValue : Option CacheItem
  sourceStopped : Bool
  sourceError : Option JsVal
  errorsValue : JsVal
  errorsStopped : Bool
  isValidatingValue : Bool
  isValidatingStopped : Bool
deriving DecidableEq

/-- BehaviorSubject.next on the source subject: a no-op once the subject is
stopped (completed or errored), otherwise the current value is replaced. -/
def subjectNext (e : Entry) (it : CacheItem) : Entry :=
  if e.sourceStopped then e else { e with sourceValue := some it }

/-- BehaviorSubject.next on the errors subject. -/
def errorsNext (e : Entry) (v : JsVal) : Entry :=
  if e.errorsStopped then e else { e with errorsValue := v }

/-- BehaviorSubject.complete on the errors subject. -/
def errorsComplete (e : Entry) : Entry :=
  { e with errorsStopped := true }

/-- BehaviorSubject.next on the isValidating subject. -/
def isValidatingNext (e : Entry) (b : Bool) : Entry :=
  if e.isValidatingStopped then e else { e with isValidatingValue := b }

/-- BehaviorSubject.error on the source subject: a no-op once stopped,
otherwise the subject stops and stores the terminal error. -/
def sourceErr (e : Entry) (err : JsVal) : Entry :=
  if e.sourceStopped then e
  else { e with sourceStopped := true, sourceError := some err }

/-- Synchronous start of SWR.requestData (src/src/swr.ts lines 97-107):
if no entry exists for the key the call returns without effect; otherwise
subscribing to the deferred pipeline immediately runs its body, which sets
isValidating to true and invokes the fetcher once. The second component
counts fetcher invocations. The source contains no gate on isValidating or
on an in-flight promise: every call with an existing entry starts a fresh
pipeline. -/
def requestDataStart : Option Entry × Nat → Option Entry × Nat
  | (none, n) => (none, n)
  | (some e, n) => (some (isValidatingNext e true), n + 1)

/-- Outcome of the retried fetch pipeline inside SWR.requestData.
Modelled from the spec: retryWithDelay is imported from
src/rxjs-operators.ts, which is absent from src; per spec section 4.E it
retries the producer on error with a fixed delay up to errorRetryCount
attempts and propagates the last error on exhaustion. A failure therefore
carries the errors of the earlier attempts plus the terminal one; the
attempt count and the delay play no role in any claim below. -/
inductive FetchOutcome where
  | success (d : JsVal)
  | failure (earlier : List JsVal) (terminal : JsVal)

/-- Resolution of the SWR.requestData pipeline (src/src/swr.ts lines
104-128) against entry e, with the fetch finishing at instant tEnd and
dedup the dedupingInterval of the merged options (line 102). On success
the subscriber pushes the new item and clears a truthy last error, and
finalize lowers isValidating. On failure every attempt has pushed its
error onto errors (first catchError, lines 109-112); the terminal
catchError (lines 117-123) reads source.value, which throws if the source
subject has errored, and otherwise errors the source and completes errors
exactly when the source value is still undefined (a present CacheItem is
an object, hence truthy); finalize then lowers isValidating. -/
def requestDataComplete (e : Entry) (outcome : FetchOutcome) (tEnd dedup : Int) :
    Except JsError Entry :=
  match outcome with
  | .success d =>
    let e1 := subjectNext e { data := d, expiresAt := tEnd + dedup }
    let e2 := if truthy e1.errorsValue then errorsNext e1 .undef else e1
    .ok (isValidatingNext e2 false)
  | .failure earlier terminal =>
    let e1 := (earlier ++ [terminal]).foldl errorsNext e
    match e1.sourceError with
    | some err => .error (.thrown err)
    | none =>
      let e2 :=
        if e1.sourceValue = none then errorsComplete (sourceErr e1 terminal) else e1
      .ok (isValidatingNext e2 false)

/-- Decision of StorageCache.getOrInit (src/src/cache.ts lines 91-94):
get(key)?.source.isStopped !== false selects init, i.e. a fresh entry is
created exactly when there is no entry or its source subject is stopped. -/
def getOrInitMakesFresh : Option Entry → Bool
  | none => true
  | some e => e.sourceStopped

/-- Guard of SWR.revalidate (src/src/swr.ts lines 89-95): whether
requestData is invoked. Uses the spec-modelled isExpired, see
CacheItem.isExpired. -/
def revalidateFires (force : Bool) (item : Option CacheItem) (now : Int) : Bool :=
  force ||
    (match item with
     | none => true
     | some it => it.isExpired now)

/-- The data argument of SWR.mutate (src/src/swr.ts line 10): a plain
value (undefined models an omitted argument; at runtime the function
cannot tell the two apart), a promise of a value, or an updater function.
Updater functions returning promises are not needed by any claim and are
not modelled. -/
inductive DataArg where
  | value (v : JsVal)
  | promiseOf (v : JsVal)
  | fn (f : JsVal → JsVal)

/-- Result of a call to SWR.mutate: the entry after the call, whether
revalidate (hence requestData, force = true) was fired, and the value the
returned promise settles with. -/
structure MutateResult where
  entry : Option Entry
  revalidated : Bool
  ret : Except JsError JsVal

/-- Tail of SWR.mutate (src/src/swr.ts lines 79-86): push the resolved
data when truthy, with expiresAt hard-coded to Date.now() + 6000 on line
80; then default shouldRevalidate to true when it is still null or
undefined, and fire revalidate with force = true when it ends up true. -/
def mutateTail (e : Entry) (d : JsVal) (sr : Option Bool) (now : Int) : MutateResult :=
  let e1 := if truthy d then subjectNext e { data := d, expiresAt := now + 6000 } else e
  let sr1 := sr.getD true
  { entry := some e1, revalidated := sr1, ret := .ok d }

/-- SWR.mutate (src/src/swr.ts lines 56-87). sr models the
shouldRevalidate argument with none standing for undefined or null, which
every test the function performs treats identically. The per-call options
argument is forwarded only to revalidate on line 84 and never influences
the pushed item, so it is a phantom here. With no entry the function
returns undefined (line 62). Reading cache.source.value on line 63 throws
if the source subject has errored. An updater function is applied to
cacheItem.data, a TypeError when cacheItem is undefined; the function and
promise branches force shouldRevalidate to false unless it was passed as
true, the promise branch additionally raising isValidating for the await
and lowering it again when shouldRevalidate stays falsy. -/
def mutate (cache : Option Entry) (dataArg : DataArg) (sr : Option Bool)
    (_opts : PartialOptions) (now : Int) : MutateResult :=
  match cache with
  | none => { entry := none, revalidated := false, ret := .ok .undef }
  | some e =>
    match e.sourceError with
    | some err => { entry := some e, revalidated := false, ret := .error (.thrown err) }
    | none =>
      match dataArg with
      | .fn f =>
        match e.sourceValue with
        | none =>
          { entry := some e, revalidated := false,
            ret := .error (.typeError "cannot read data of undefined") }
        | some it =>
          let sr1 : Option Bool := if sr = some true then some true else some false
          mutateTail e (f it.data) sr1 now
      | .promiseOf v =>
        let e1 := isValidatingNext e true
        if sr = some true then mutateTail e1 v (some true) now
        else mutateTail (isValidatingNext e1 false) v (some false) now
      | .value v => mutateTail e v sr now

/-- A value supplied as options.initialData: either a plain value without
an expiresAt field, or an object already shaped like a CacheItem. The
absent argument is raw JsVal.undef. -/
inductive InitVal where
  | raw (v : JsVal)
  | item (it : CacheItem)
deriving DecidableEq

/-- StorageCache.getItemFromStorage (src/src/cache.ts lines 72-75), given
the item the persisted map holds for the key: the body is
return item?.isExpired ? item : undefined, so the stored item is returned
exactly when the expiry test succeeds. -/
def getItemFromStorage (stored : Option CacheItem) (now : Int) : Option CacheItem :=
  match stored with
  | none => none
  | some it => if it.isExpired now then some it else none

/-- Initial source value computed by StorageCache.init (src/src/cache.ts
lines 110-115): getItemFromStorage(key) || options.initialData, then a
truthy value lacking an expiresAt field is wrapped into a CacheItem with
expiry 0. A result of the form raw v (necessarily with v falsy) models the
unwrapped value landing in the new BehaviorSubject, raw JsVal.undef being
the undefined initial value. -/
def initialSourceValue (stored : Option CacheItem) (optInit : InitVal) (now : Int) :
    InitVal :=
  let d : InitVal :=
    match getItemFromStorage stored now with
    | some it => .item it
    | none => optInit
  match d with
  | .item it => .item it
  | .raw v => if truthy v then .item { data := v, expiresAt := 0 } else .raw v

/-- Association-list lookup by key, first match wins; models Map.get on
maps whose iteration order matters. -/
def alookup {α : Type} : List (String × α) → String → Option α
  | [], _ => none
  | (k1, v) :: rest, k => if k1 = k then some v else alookup rest k

/-- In-place replacement of the value stored under a key; models mutating
the object an in-memory map holds for the key. -/
def mapUpdate {α : Type} : List (String × α) → String → α → List (String × α)
  | [], _, _ => []
  | (k1, v1) :: rest, k, v =>
    (if k1 = k then (k, v) else (k1, v1)) :: mapUpdate rest k v

/-- The persisted map, as the ordered pair list localStorage holds under
the sswr key (src/src/cache.ts lines 42-54). -/
abbrev Store := List (String × CacheItem)

/-- The in-memory entry map of StorageCache (src/src/cache.ts line 30). -/
abbrev Mem := List (String × Entry)

/-- Loop body and accumulator of StorageCache.syncWithStorage
(src/src/cache.ts lines 56-70): iterate the persisted map in order; an
expired item is dropped from the map; for an unexpired item whose key has
an in-memory entry, read the current source value (throws if the source
subject has errored, and reading expiresAt of an undefined current item
throws a TypeError) and push the incoming item exactly when its expiresAt
is strictly greater. The accumulator collects the pruned map that is
written back at the end. -/
def syncGo (now : Int) : Mem → Store → Store → Except JsError (Mem × Store)
  | mem, acc, [] => .ok (mem, acc)
  | mem, acc, (key, item) :: rest =>
    if item.isExpired now then
      syncGo now mem acc rest
    else
      match alookup mem key with
      | none => syncGo now mem (acc ++ [(key, item)]) rest
      | some entry =>
        match entry.sourceError with
        | some err => .error (.thrown err)
        | none =>
          match entry.sourceValue with
          | none => .error (.typeError "cannot read expiresAt of undefined")
          | some cur =>
            if item.expiresAt ≤ cur.expiresAt then
              syncGo now mem (acc ++ [(key, item)]) rest
            else
              syncGo now (mapUpdate mem key (subjectNext entry item))
                (acc ++ [(key, item)]) rest

/-- StorageCache.syncWithStorage (src/src/cache.ts lines 56-70): run the
loop over the persisted map and return the updated in-memory map together
with the pruned map written back to storage. -/
def syncWithStorage (mem : Mem) (store : Store) (now : Int) :
    Except JsError (Mem × Store) :=
  syncGo now mem [] store

/-- Completing the three subjects of an entry, as done by
StorageCache.stopAndDelete; complete on an already stopped subject is a
no-op, which the idempotent flags absorb. -/
def completeEntry (e : Entry) : Entry :=
  { e with sourceStopped := true, errorsStopped := true, isValidatingStopped := true }

/-- StorageCache.stopAndDelete (src/src/cache.ts lines 96-108): with no
entry for the key the call returns; otherwise it reads cache.source.value
(throws if the source subject has errored), removes the persisted copy
exactly when the current item exists and is expired, and completes the
three subjects. Nothing removes the entry from the in-memory map. -/
def stopAndDelete (mem : Mem) (store : Store) (key : String) (now : Int) :
    Except JsError (Mem × Store) :=
  match alookup mem key with
  | none => .ok (mem, store)
  | some e =>
    match e.sourceError with
    | some err => .error (.thrown err)
    | none =>
      let store1 :=
        match e.sourceValue with
        | some it =>
          if it.isExpired now then store.filter (fun kv => decide (kv.1 ≠ key)) else store
        | none => store
      .ok (mapUpdate mem key (completeEntry e), store1)

/-- States in which the syncWithStorage loop meets no exceptional read:
every key holding an unexpired persisted item and present in the in-memory
map has a live entry (source neither errored nor completed) with a defined
current item. -/
def SyncReady (mem : Mem) (store : Store) (now : Int) : Prop :=
  ∀ k it e, alookup store k = some it → it.isExpired now = false →
    alookup mem k = some e →
    e.sourceError = none ∧ e.sourceStopped = false ∧ e.sourceValue ≠ none

/-- A live entry holding no item yet: the state right after init with no
stored item and no initialData. -/
def liveEntryNoItem : Entry :=
  { sourceValue := none, sourceStopped := false, sourceError := none,
    errorsValue := .undef, errorsStopped := false,
    isValidatingValue := false, isValidatingStopped := false }

/-- A live entry currently holding the given item. -/
def eWithItem (it : CacheItem) : Entry :=
  { liveEntryNoItem with sourceValue := some it }

/-- A live entry with a fetch in flight (isValidating is true). -/
def eInFlight : Entry :=
  { liveEntryNoItem with isValidatingValue := true }

/-- A live entry whose last error is the number 0: defined (not undefined)
but falsy. -/
def eFalsyError : Entry :=
  { liveEntryNoItem with sourceValue := some ⟨.num 1, 50⟩, errorsValue := .num 0 }

/-- Per-call options requesting a dedupingInterval of 1000. -/
def oSmall : PartialOptions := ⟨some 1000, none, none⟩

/-- The revalidation decision the amended claim C3 states: an explicitly
passed shouldRevalidate wins; with it omitted (or null), an updater
function or a promise defaults to false, while an omitted or plain data
value defaults to true. -/
def defaultRevalidated (sr : Option Bool) (dataArg : DataArg) : Bool :=
  match sr, dataArg with
  | some b, _ => b
  | none, .fn _ => false
  | none, .promiseOf _ => false
  | none, .value _ => true

theorem errorsNext_fields (e : Entry) (v : JsVal) :
    (errorsNext e v).sourceValue = e.sourceValue ∧
    (errorsNext e v).sourceStopped = e.sourceStopped ∧
    (errorsNext e v).sourceError = e.sourceError ∧
    (errorsNext e v).errorsStopped = e.errorsStopped := by
  unfold errorsNext
  split <;> simp

theorem isValidatingNext_fields (e : Entry) (b : Bool) :
    (isValidatingNext e b).sourceValue = e.sourceValue ∧
    (isValidatingNext e b).sourceError = e.sourceError ∧
    (isValidatingNext e b).sourceStopped = e.sourceStopped ∧
    (isValidatingNext e b).errorsValue = e.errorsValue ∧
    (isValidatingNext e b).errorsStopped = e.errorsStopped := by
  unfold isValidatingNext
  split <;> simp

theorem subjectNext_fields (e : Entry) (it : CacheItem) :
    (subjectNext e it).errorsValue = e.errorsValue ∧
    (subjectNext e it).errorsStopped = e.errorsStopped ∧
    (subjectNext e it).sourceError = e.sourceError ∧
    (subjectNext e it).sourceStopped = e.sourceStopped := by
  unfold subjectNext
  split <;> simp

theorem subjectNext_value (e : Entry) (it : CacheItem) (h : e.sourceStopped = false) :
    (subjectNext e it).sourceValue = some it := by
  simp [subjectNext, h]

theorem foldl_errorsNext_fields (l : List JsVal) (e : Entry) :
    (l.foldl errorsNext e).sourceValue = e.sourceValue ∧
    (l.foldl errorsNext e).sourceStopped = e.sourceStopped ∧
    (l.foldl errorsNext e).sourceError = e.sourceError ∧
    (l.foldl errorsNext e).errorsStopped = e.errorsStopped := by
  induction l generalizing e with
  | nil => exact ⟨rfl, rfl, rfl, rfl⟩
  | cons v rest ih =>
    simp only [List.foldl_cons]
    obtain ⟨h1, h2, h3, h4⟩ := ih (errorsNext e v)
    obtain ⟨g1, g2, g3, g4⟩ := errorsNext_fields e v
    exact ⟨h1.trans g1, h2.trans g2, h3.trans g3, h4.trans g4⟩

theorem foldl_errorsNext_value (l : List JsVal) (e : Entry)
    (h : e.errorsStopped = false) :
    (l.foldl errorsNext e).errorsValue = l.getLastD e.errorsValue := by
  induction l generalizing e with
  | nil => rfl
  | cons v rest ih =>
    simp only [List.foldl_cons, List.getLastD_cons]
    have h2 : (errorsNext e v).errorsStopped = false :=
      (errorsNext_fields e v).2.2.2.trans h
    rw [ih _ h2]
    congr 1
    simp [errorsNext, h]

theorem getLastD_snoc {α : Type} (l : List α) (a d : α) : (l ++ [a]).getLastD d = a := by
  induction l generalizing d with
  | nil => rfl
  | cons b rest ih => rw [List.cons_append, List.getLastD_cons, ih]

/-- C1 (amended): requestData contains no single-in-flight gate: even while
a pipeline for the key is outstanding (isValidating is true), a further
call to requestData with an existing entry starts another fetcher
invocation; deduplication happens only upstream, in the expiry guard of
revalidate. -/
theorem requestData_inflight_not_gated (e : Entry) (n : Nat)
    (hv : e.isValidatingValue = true) :
    (requestDataStart (some e, n)).2 = n + 1 := rfl

theorem requestData_inflight_not_gated_witness :
    eInFlight.isValidatingValue = true ∧
    (requestDataStart (some eInFlight, 1)).2 = 1 + 1 :=
  ⟨rfl, requestData_inflight_not_gated eInFlight 1 rfl⟩

/-- C1 counterexample: an entry with a fetch in flight (isValidating true)
and fetcher-invocation count 1; a further requestData call raises the
count to 2, so a second fetcher invocation is started, refuting the
single-in-flight claim. -/
theorem requestData_single_flight_counterexample :
    eInFlight.isValidatingValue = true ∧
    (requestDataStart (some eInFlight, 1)).2 = 2 ∧ (2 : Nat) ≠ 1 :=
  ⟨rfl, rfl, by decide⟩

/-- C3 (amended): an explicitly passed shouldRevalidate decides; when it is
omitted (or null), revalidation defaults to false when data is an updater
function or a promise, and to true when data is omitted or a plain value
(the source only forces the default to false inside the function and
promise branches; a plain value reaches the shouldRevalidate == null test
untouched, which turns it into true). -/
theorem mutate_revalidate_defaults (e : Entry) (dataArg : DataArg) (sr : Option Bool)
    (opts : PartialOptions) (now : Int)
    (h1 : e.sourceError = none)
    (h2 : ∀ f, dataArg = .fn f → e.sourceValue ≠ none) :
    (mutate (some e) dataArg sr opts now).revalidated =
      defaultRevalidated sr dataArg := by
  cases dataArg with
  | fn f =>
    have hne : e.sourceValue ≠ none := h2 f rfl
    clear h2
    cases hsv : e.sourceValue with
    | none => exact absurd hsv hne
    | some it =>
      cases sr with
      | none => simp [mutate, h1, hsv, mutateTail, defaultRevalidated]
      | some b => cases b <;> simp [mutate, h1, hsv, mutateTail, defaultRevalidated]
  | promiseOf v =>
    cases sr with
    | none => simp [mutate, h1, mutateTail, defaultRevalidated]
    | some b => cases b <;> simp [mutate, h1, mutateTail, defaultRevalidated]
  | value v =>
    cases sr with
    | none => simp [mutate, h1, mutateTail, defaultRevalidated]
    | some b => simp [mutate, h1, mutateTail, defaultRevalidated]

theorem mutate_revalidate_defaults_witness :
    (mutate (some liveEntryNoItem) (.value (.num 5)) none noOpts 0).revalidated =
      defaultRevalidated none (.value (.num 5)) :=
  mutate_revalidate_defaults liveEntryNoItem (.value (.num 5)) none noOpts 0 rfl
    (fun _ h => nomatch h)

/-- C3 counterexample: mutate on an entry holding an item, with data a
plain provided value and shouldRevalidate omitted, does revalidate: the
claimed default of false for provided data is wrong for plain values. -/
theorem mutate_plain_value_default_counterexample :
    (mutate (some (eWithItem ⟨.num 1, 100⟩)) (.value (.num 9)) none noOpts 0).revalidated
      = true ∧ true ≠ false := by
  constructor
  · rfl
  · decide

/-- C4 (amended): on a truthy resolved data value, mutate pushes a new
CacheItem whose expiresAt is now() + 6000, the constant hard-coded on
src/src/swr.ts line 80 — the per-call options never reach the push — and
the returned promise resolves to the resolved data. -/
theorem mutate_push_fixed_6000 (e : Entry) (v : JsVal) (sr : Option Bool)
    (opts : PartialOptions) (now : Int)
    (hstop : e.sourceStopped = false) (herr : e.sourceError = none)
    (htr : truthy v = true) :
    (mutate (some e) (.value v) sr opts now).entry =
      some { e with sourceValue := some ⟨v, now + 6000⟩ } ∧
    (mutate (some e) (.value v) sr opts now).ret = .ok v := by
  constructor <;> simp [mutate, herr, mutateTail, htr, subjectNext, hstop]

theorem mutate_push_fixed_6000_witness :
    (mutate (some liveEntryNoItem) (.value (.num 7)) (some false) noOpts 100).entry =
      some { liveEntryNoItem with sourceValue := some ⟨.num 7, 100 + 6000⟩ } ∧
    (mutate (some liveEntryNoItem) (.value (.num 7)) (some false) noOpts 100).ret =
      .ok (.num 7) :=
  mutate_push_fixed_6000 liveEntryNoItem (.num 7) (some false) noOpts 100 rfl rfl (by decide)

/-- C4 counterexample: a call whose effective merged dedupingInterval is
1000 still pushes an item expiring at now() + 6000 (here 100 + 6000 =
6100), not at now() + 1000, refuting the claim that the pushed expiresAt
uses the effective option. -/
theorem mutate_push_ignores_dedup_option :
    (mergeOptions defaultOptions oSmall).dedupingInterval = 1000 ∧
    (mutate (some liveEntryNoItem) (.value (.num 7)) (some false) oSmall 100).entry =
      some { liveEntryNoItem with sourceValue := some ⟨.num 7, 6100⟩ } ∧
    (100 : Int) + (mergeOptions defaultOptions oSmall).dedupingInterval ≠ 6100 := by
  refine ⟨rfl, ?_, by decide⟩
  simp [mutate, mutateTail, liveEntryNoItem, subjectNext, truthy]

/-- C9 (confirmed): revalidate invokes requestData exactly when force is
set, or no item is cached, or the item is expired (expiresAt < now). -/
theorem revalidate_guard (force : Bool) (item : Option CacheItem) (now : Int) :
    revalidateFires force item now = true ↔
      (force = true ∨ item = none ∨ ∃ it, item = some it ∧ it.expiresAt < now) := by
  cases force <;> cases item <;> simp [revalidateFires, CacheItem.isExpired]

/-- C10 (confirmed): mutate with an updater function on an entry whose
source holds no item rejects with a TypeError (the function is applied to
the data field of an undefined current item), while mutate on an unknown
key resolves to undefined. -/
theorem mutate_fn_no_item_type_error (e : Entry) (f : JsVal → JsVal)
    (sr : Option Bool) (opts : PartialOptions) (now : Int)
    (h1 : e.sourceError = none) (h2 : e.sourceValue = none) :
    (mutate (some e) (.fn f) sr opts now).ret =
      .error (.typeError "cannot read data of undefined") ∧
    (mutate none (.fn f) sr opts now).ret = .ok .undef := by
  constructor
  · simp [mutate, h1, h2]
  · rfl

theorem mutate_fn_no_item_type_error_witness :
    (mutate (some liveEntryNoItem) (.fn (fun v => v)) none noOpts 0).ret =
      .error (.typeError "cannot read data of undefined") ∧
    (mutate none (.fn (fun v => v)) none noOpts 0).ret = .ok .undef :=
  mutate_fn_no_item_type_error liveEntryNoItem (fun v => v) none noOpts 0 rfl rfl

/-- C6 (code bug): getItemFromStorage returns the stored item exactly when
it IS expired — the condition on src/src/cache.ts line 74 is inverted with
respect to the claim and the spec. At the failing input, a stored
non-expired item (expiresAt 1000, now 0) is ignored and init falls back to
options.initialData (wrapped with expiry 0), while a stored expired item
would be returned. -/
theorem getItemFromStorage_inverted :
    (CacheItem.mk (.num 1) 1000).isExpired 0 = false ∧
    getItemFromStorage (some ⟨.num 1, 1000⟩) 0 = none ∧
    initialSourceValue (some ⟨.num 1, 1000⟩) (.raw (.num 2)) 0 = .item ⟨.num 2, 0⟩ ∧
    (CacheItem.mk (.num 3) (-5)).isExpired 0 = true ∧
    getItemFromStorage (some ⟨.num 3, -5⟩) 0 = some ⟨.num 3, -5⟩ := by
  decide

/-- C8 (code bug): stopAndDelete on an existing entry whose current item is
expired removes the persisted copy and completes the three subjects, but
the entry is still found in the in-memory map afterwards — nothing in
src/src/cache.ts lines 96-108 deletes it. -/
theorem stopAndDelete_keeps_entry :
    stopAndDelete [("k", eWithItem ⟨.num 1, 5⟩)] [("k", ⟨.num 1, 5⟩)] "k" 10 =
      .ok ([("k", completeEntry (eWithItem ⟨.num 1, 5⟩))], []) ∧
    alookup [("k", completeEntry (eWithItem ⟨.num 1, 5⟩))] "k" ≠ none ∧
    (completeEntry (eWithItem ⟨.num 1, 5⟩)).sourceStopped = true ∧
    (completeEntry (eWithItem ⟨.num 1, 5⟩)).errorsStopped = true ∧
    (completeEntry (eWithItem ⟨.num 1, 5⟩)).isValidatingStopped = true := by
  refine ⟨rfl, by decide, rfl, rfl, rfl⟩

/-- C2 (amended): a successful fetch completing at t pushes a CacheItem
carrying the fetched value and expiring at t plus the dedupingInterval of
the merged options, and the last error is reset to undefined when it is
truthy (the source tests if (cache.errors.value), so a defined but falsy
error value, such as 0, is left in place). -/
theorem requestData_success_push (e : Entry) (d : JsVal) (base : SwrOptions)
    (o : PartialOptions) (t : Int)
    (hstop : e.sourceStopped = false) (herr : e.errorsStopped = false) :
    ∃ e2, requestDataComplete e (.success d) t (mergeOptions base o).dedupingInterval
        = .ok e2 ∧
      e2.sourceValue = some ⟨d, t + (mergeOptions base o).dedupingInterval⟩ ∧
      e2.errorsValue = (if truthy e.errorsValue then JsVal.undef else e.errorsValue) := by
  refine ⟨_, rfl, ?_, ?_⟩
  · rw [(isValidatingNext_fields _ _).1]
    split
    · rw [(errorsNext_fields _ _).1, subjectNext_value e _ hstop]
    · rw [subjectNext_value e _ hstop]
  · rw [(isValidatingNext_fields _ _).2.2.2.1]
    rw [show (subjectNext e ⟨d, t + (mergeOptions base o).dedupingInterval⟩).errorsValue
          = e.errorsValue from (subjectNext_fields e _).1]
    split
    · simp [errorsNext, (subjectNext_fields e _).2.1, herr]
    · exact (subjectNext_fields e _).1

theorem requestData_success_push_witness :
    ∃ e2, requestDataComplete eFalsyError (.success (.num 3)) 10
        (mergeOptions defaultOptions noOpts).dedupingInterval = .ok e2 ∧
      e2.sourceValue =
        some ⟨.num 3, 10 + (mergeOptions defaultOptions noOpts).dedupingInterval⟩ ∧
      e2.errorsValue =
        (if truthy eFalsyError.errorsValue then JsVal.undef else eFalsyError.errorsValue) :=
  requestData_success_push eFalsyError (.num 3) defaultOptions noOpts 10 rfl rfl

/-- C2 counterexample: an entry whose last error is 0 — defined, i.e. not
undefined, but falsy. A successful fetch leaves the error in place, so the
claim that any non-undefined error value is reset to undefined fails. -/
theorem requestData_success_errors_counterexample :
    eFalsyError.errorsValue ≠ JsVal.undef ∧
    ∃ e2, requestDataComplete eFalsyError (.success (.num 3)) 10 6000 = .ok e2 ∧
      e2.errorsValue = JsVal.num 0 ∧ e2.errorsValue ≠ JsVal.undef := by
  exact ⟨by decide, _, rfl, rfl, by decide⟩

/-- C5 (confirmed): on terminal fetch failure against a live entry, if the
source still holds no item the source subject is errored with the terminal
error and the errors subject completes, after which getOrInit creates a
fresh entry for the key; if an item is cached, the stale item is kept, the
errors subject stays open and retains the last (terminal) error, and the
entry is not stopped. -/
theorem sourceErr_fields_not_stopped (e : Entry) (err : JsVal)
    (h : e.sourceStopped = false) :
    (sourceErr e err).sourceStopped = true ∧ (sourceErr e err).sourceError = some err ∧
    (sourceErr e err).errorsStopped = e.errorsStopped ∧
    (sourceErr e err).sourceValue = e.sourceValue := by
  simp [sourceErr, h]

theorem errorsComplete_fields (e : Entry) :
    (errorsComplete e).sourceStopped = e.sourceStopped ∧
    (errorsComplete e).sourceError = e.sourceError ∧
    (errorsComplete e).errorsStopped = true ∧
    (errorsComplete e).sourceValue = e.sourceValue := by
  simp [errorsComplete]

theorem requestData_terminal_failure (e : Entry) (earlier : List JsVal)
    (terminal : JsVal) (t dedup : Int)
    (hse : e.sourceError = none) (hss : e.sourceStopped = false)
    (hes : e.errorsStopped = false) :
    ∃ e2, requestDataComplete e (.failure earlier terminal) t dedup = .ok e2 ∧
      (e.sourceValue = none →
        e2.sourceStopped = true ∧ e2.sourceError = some terminal ∧
        e2.errorsStopped = true ∧ getOrInitMakesFresh (some e2) = true) ∧
      (∀ it, e.sourceValue = some it →
        e2.sourceValue = some it ∧ e2.errorsValue = terminal ∧
        e2.errorsStopped = false ∧ getOrInitMakesFresh (some e2) = false) := by
  obtain ⟨f1, f2, f3, f4⟩ := foldl_errorsNext_fields (earlier ++ [terminal]) e
  simp only [requestDataComplete]
  rw [f3, hse, f1]
  refine ⟨_, rfl, ?_, ?_⟩
  · intro hnone
    rw [hnone]
    rw [if_pos (rfl : (none : Option CacheItem) = none)]
    have hX : ((earlier ++ [terminal]).foldl errorsNext e).sourceStopped = false :=
      f2.trans hss
    obtain ⟨s1, s2, s3, s4⟩ := sourceErr_fields_not_stopped
      ((earlier ++ [terminal]).foldl errorsNext e) terminal hX
    obtain ⟨c1, c2, c3, c4⟩ := errorsComplete_fields
      (sourceErr ((earlier ++ [terminal]).foldl errorsNext e) terminal)
    obtain ⟨g1, g2, g3, g4, g5⟩ := isValidatingNext_fields
      (errorsComplete (sourceErr ((earlier ++ [terminal]).foldl errorsNext e) terminal)) false
    refine ⟨?_, ?_, ?_, ?_⟩
    · rw [g3, c1, s1]
    · rw [g2, c2, s2]
    · rw [g5, c3]
    · show (isValidatingNext _ false).sourceStopped = true
      rw [g3, c1, s1]
  · intro it hsome
    rw [hsome]
    rw [if_neg (Option.some_ne_none it)]
    obtain ⟨g1, g2, g3, g4, g5⟩ := isValidatingNext_fields
      ((earlier ++ [terminal]).foldl errorsNext e) false
    refine ⟨?_, ?_, ?_, ?_⟩
    · rw [g1, f1, hsome]
    · rw [g4, foldl_errorsNext_value _ _ hes, getLastD_snoc]
    · rw [g5, f4, hes]
    · show (isValidatingNext _ false).sourceStopped = false
      rw [g3, f2, hss]

theorem requestData_terminal_failure_witness :
    ∃ e2, requestDataComplete liveEntryNoItem (.failure [.str "E"] (.str "E")) 0 6000
        = .ok e2 ∧
      (liveEntryNoItem.sourceValue = none →
        e2.sourceStopped = true ∧ e2.sourceError = some (.str "E") ∧
        e2.errorsStopped = true ∧ getOrInitMakesFresh (some e2) = true) ∧
      (∀ it, liveEntryNoItem.sourceValue = some it →
        e2.sourceValue = some it ∧ e2.errorsValue = .str "E" ∧
        e2.errorsStopped = false ∧ getOrInitMakesFresh (some e2) = false) :=
  requestData_terminal_failure liveEntryNoItem [.str "E"] (.str "E") 0 6000 rfl rfl rfl

theorem alookup_cons_ne {α : Type} (k1 k : String) (v : α) (rest : List (String × α))
    (h : k1 ≠ k) : alookup ((k1, v) :: rest) k = alookup rest k := by
  simp [alookup, h]

theorem alookup_eq_none_of_not_mem {α : Type} (l : List (String × α)) (k : String)
    (h : k ∉ l.map Prod.fst) : alookup l k = none := by
  induction l with
  | nil => rfl
  | cons kv rest ih =>
    obtain ⟨k1, v⟩ := kv
    simp only [List.map_cons, List.mem_cons] at h
    push_neg at h
    rw [alookup_cons_ne k1 k v rest (Ne.symm h.1)]
    exact ih h.2

theorem alookup_mapUpdate_self {α : Type} (l : List (String × α)) (k : String)
    (v w : α) (h : alookup l k = some w) :
    alookup (mapUpdate l k v) k = some v := by
  induction l with
  | nil => exact absurd h (by simp [alookup])
  | cons kv rest ih =>
    obtain ⟨k1, v1⟩ := kv
    by_cases hk : k1 = k
    · subst hk
      show alookup ((if k1 = k1 then (k1, v) else (k1, v1)) :: mapUpdate rest k1 v) k1 = some v
      rw [if_pos rfl]
      simp [alookup]
    · rw [alookup_cons_ne k1 k v1 rest hk] at h
      simp only [mapUpdate]
      rw [if_neg hk, alookup_cons_ne k1 k v1 (mapUpdate rest k v) hk]
      exact ih h

theorem alookup_mapUpdate_ne {α : Type} (l : List (String × α)) (k k2 : String)
    (v : α) (h : k2 ≠ k) :
    alookup (mapUpdate l k v) k2 = alookup l k2 := by
  induction l with
  | nil => rfl
  | cons kv rest ih =>
    obtain ⟨k1, v1⟩ := kv
    simp only [mapUpdate]
    by_cases hk : k1 = k
    · rw [if_pos hk, alookup_cons_ne k k2 v (mapUpdate rest k v) (Ne.symm h),
          alookup_cons_ne k1 k2 v1 rest (fun he => h (he.symm.trans hk))]
      exact ih
    · rw [if_neg hk]
      simp only [alookup]
      by_cases h12 : k1 = k2
      · rw [if_pos h12, if_pos h12]
      · rw [if_neg h12, if_neg h12]
        exact ih

theorem syncGo_spec (now : Int) (store : Store) :
    ∀ (mem : Mem) (acc : Store),
    (store.map Prod.fst).Nodup → SyncReady mem store now →
    ∃ mem2,
      syncGo now mem acc store =
        .ok (mem2, acc ++ store.filter (fun kv => !(kv.2.isExpired now))) ∧
      (∀ k it e cur, alookup store k = some it → it.isExpired now = false →
        alookup mem k = some e → e.sourceValue = some cur →
        alookup mem2 k =
          some (if cur.expiresAt < it.expiresAt
                then { e with sourceValue := some it } else e)) ∧
      (∀ k, (∀ it, alookup store k = some it → it.isExpired now = true) →
        alookup mem2 k = alookup mem k) := by
  induction store with
  | nil =>
    intro mem acc hnd hready
    refine ⟨mem, by simp [syncGo], ?_, fun k _ => rfl⟩
    intro k it e cur hl
    exact absurd hl (by simp [alookup])
  | cons head rest ih =>
    obtain ⟨key, item⟩ := head
    intro mem acc hnd hready
    have hnd1 : key ∉ rest.map Prod.fst := by
      simp only [List.map_cons, List.nodup_cons] at hnd
      exact hnd.1
    have hnd2 : (rest.map Prod.fst).Nodup := by
      simp only [List.map_cons, List.nodup_cons] at hnd
      exact hnd.2
    have hrestNone : alookup rest key = none := alookup_eq_none_of_not_mem rest key hnd1
    have hfullkey : alookup ((key, item) :: rest) key = some item := by
      simp [alookup]
    have hfullne : ∀ k, key ≠ k → alookup ((key, item) :: rest) k = alookup rest k :=
      fun k hk => alookup_cons_ne key k item rest hk
    by_cases hexp : item.isExpired now = true
    · -- the head item is expired: it is dropped and the memory untouched
      have hreadyR : SyncReady mem rest now := by
        intro k it e hl hx hm
        by_cases hk : key = k
        · subst hk
          rw [hrestNone] at hl
          exact Option.noConfusion hl
        · exact hready k it e (by rw [hfullne k hk]; exact hl) hx hm
      obtain ⟨mem2, hrun, hchar, hsame⟩ := ih mem acc hnd2 hreadyR
      refine ⟨mem2, ?_, ?_, ?_⟩
      · have hstep : syncGo now mem acc ((key, item) :: rest) = syncGo now mem acc rest := by
          simp [syncGo, hexp]
        rw [hstep, hrun]
        simp [List.filter_cons, hexp]
      · intro k it e cur hl hx hm hc
        by_cases hk : key = k
        · subst hk
          rw [hfullkey] at hl
          injection hl with hl2
          subst hl2
          rw [hx] at hexp
          exact Bool.noConfusion hexp
        · rw [hfullne k hk] at hl
          exact hchar k it e cur hl hx hm hc
      · intro k hall
        by_cases hk : key = k
        · subst hk
          refine hsame key ?_
          intro it hl
          rw [hrestNone] at hl
          exact Option.noConfusion hl
        · refine hsame k ?_
          intro it hl
          exact hall it (by rw [hfullne k hk]; exact hl)
    · -- the head item is unexpired
      have hexpF : item.isExpired now = false := by
        cases hE : item.isExpired now
        · rfl
        · exact absurd hE hexp
      have hreadyR : ∀ m : Mem, (∀ k, key ≠ k → alookup m k = alookup mem k) →
          SyncReady m rest now := by
        intro m hmm k it e hl hx hm
        by_cases hk : key = k
        · subst hk
          rw [hrestNone] at hl
          exact Option.noConfusion hl
        · refine hready k it e (by rw [hfullne k hk]; exact hl) hx ?_
          rw [← hmm k hk]
          exact hm
      cases hmk : alookup mem key with
      | none =>
        have hstep : syncGo now mem acc ((key, item) :: rest)
            = syncGo now mem (acc ++ [(key, item)]) rest := by
          simp [syncGo, hexpF, hmk]
        obtain ⟨mem2, hrun, hchar, hsame⟩ := ih mem (acc ++ [(key, item)]) hnd2
          (hreadyR mem (fun _ _ => rfl))
        refine ⟨mem2, ?_, ?_, ?_⟩
        · rw [hstep, hrun]
          simp [List.filter_cons, hexpF]
        · intro k it e cur hl hx hm hc
          by_cases hk : key = k
          · subst hk
            rw [hmk] at hm
            exact Option.noConfusion hm
          · rw [hfullne k hk] at hl
            exact hchar k it e cur hl hx hm hc
        · intro k hall
          by_cases hk : key = k
          · subst hk
            have hcontra := hall item hfullkey
            rw [hexpF] at hcontra
            exact Bool.noConfusion hcontra
          · refine hsame k ?_
            intro it hl
            exact hall it (by rw [hfullne k hk]; exact hl)
      | some entry =>
        obtain ⟨hE1, hE2, hE3⟩ := hready key item entry hfullkey hexpF hmk
        cases hsv : entry.sourceValue with
        | none => exact absurd hsv hE3
        | some cur0 =>
          by_cases hle : item.expiresAt ≤ cur0.expiresAt
          · -- incoming expiry not strictly greater: no push
            have hstep : syncGo now mem acc ((key, item) :: rest)
                = syncGo now mem (acc ++ [(key, item)]) rest := by
              simp [syncGo, hexpF, hmk, hE1, hsv, hle]
            obtain ⟨mem2, hrun, hchar, hsame⟩ := ih mem (acc ++ [(key, item)]) hnd2
              (hreadyR mem (fun _ _ => rfl))
            refine ⟨mem2, ?_, ?_, ?_⟩
            · rw [hstep, hrun]
              simp [List.filter_cons, hexpF]
            · intro k it e cur hl hx hm hc
              by_cases hk : key = k
              · subst hk
                rw [hfullkey] at hl
                injection hl with hl2
                subst hl2
                rw [hmk] at hm
                injection hm with hm2
                subst hm2
                rw [hsv] at hc
                injection hc with hc2
                subst hc2
                rw [if_neg (not_lt.mpr hle)]
                have hvac : ∀ it2, alookup rest key = some it2 → it2.isExpired now = true := by
                  intro it2 hl2
                  rw [hrestNone] at hl2
                  exact Option.noConfusion hl2
                rw [hsame key hvac, hmk]
              · rw [hfullne k hk] at hl
                exact hchar k it e cur hl hx hm hc
            · intro k hall
              by_cases hk : key = k
              · subst hk
                have hcontra := hall item hfullkey
                rw [hexpF] at hcontra
                exact Bool.noConfusion hcontra
              · refine hsame k ?_
                intro it hl
                exact hall it (by rw [hfullne k hk]; exact hl)
          · -- strictly greater incoming expiry: the item is pushed
            have hlt : cur0.expiresAt < item.expiresAt := not_le.mp hle
            have hstep : syncGo now mem acc ((key, item) :: rest)
                = syncGo now (mapUpdate mem key (subjectNext entry item))
                    (acc ++ [(key, item)]) rest := by
              simp [syncGo, hexpF, hmk, hE1, hsv, hle]
            have hpush : subjectNext entry item = { entry with sourceValue := some item } := by
              simp [subjectNext, hE2]
            have hupd : ∀ k, key ≠ k →
                alookup (mapUpdate mem key (subjectNext entry item)) k = alookup mem k :=
              fun k hk => alookup_mapUpdate_ne mem key k (subjectNext entry item) (Ne.symm hk)
            obtain ⟨mem2, hrun, hchar, hsame⟩ := ih (mapUpdate mem key (subjectNext entry item))
              (acc ++ [(key, item)]) hnd2 (hreadyR _ hupd)
            refine ⟨mem2, ?_, ?_, ?_⟩
            · rw [hstep, hrun]
              simp [List.filter_cons, hexpF]
            · intro k it e cur hl hx hm hc
              by_cases hk : key = k
              · subst hk
                rw [hfullkey] at hl
                injection hl with hl2
                subst hl2
                rw [hmk] at hm
                injection hm with hm2
                subst hm2
                rw [hsv] at hc
                injection hc with hc2
                subst hc2
                rw [if_pos hlt]
                have hvac : ∀ it2, alookup rest key = some it2 → it2.isExpired now = true := by
                  intro it2 hl2
                  rw [hrestNone] at hl2
                  exact Option.noConfusion hl2
                rw [hsame key hvac,
                    alookup_mapUpdate_self mem key (subjectNext entry item) entry hmk, hpush]
              · rw [hfullne k hk] at hl
                have hm2 : alookup (mapUpdate mem key (subjectNext entry item)) k = some e := by
                  rw [hupd k hk]
                  exact hm
                exact hchar k it e cur hl hx hm2 hc
            · intro k hall
              by_cases hk : key = k
              · subst hk
                have hcontra := hall item hfullkey
                rw [hexpF] at hcontra
                exact Bool.noConfusion hcontra
              · have h1 : alookup mem2 k
                    = alookup (mapUpdate mem key (subjectNext entry item)) k := by
                  refine hsame k ?_
                  intro it hl
                  exact hall it (by rw [hfullne k hk]; exact hl)
                rw [h1, hupd k hk]

/-- C7 (amended): in states where every key holding an unexpired persisted
item and present in the in-memory map has a live entry with a defined
current item (SyncReady), syncWithStorage succeeds and is monotone per key:
expired items are dropped and exactly the pruned map is written back, an
unexpired item is pushed into the matching entry exactly when its expiresAt
is strictly greater than the current one, and keys without an unexpired
incoming item leave the in-memory map untouched. Outside SyncReady the
pass can instead throw (see the counterexample) before writing back. -/
theorem syncWithStorage_monotone (mem : Mem) (store : Store) (now : Int)
    (hnd : (store.map Prod.fst).Nodup) (hready : SyncReady mem store now) :
    ∃ mem2,
      syncWithStorage mem store now =
        .ok (mem2, store.filter (fun kv => !(kv.2.isExpired now))) ∧
      (∀ k it e cur, alookup store k = some it → it.isExpired now = false →
        alookup mem k = some e → e.sourceValue = some cur →
        alookup mem2 k =
          some (if cur.expiresAt < it.expiresAt
                then { e with sourceValue := some it } else e)) ∧
      (∀ k, (∀ it, alookup store k = some it → it.isExpired now = true) →
        alookup mem2 k = alookup mem k) := by
  obtain ⟨mem2, h1, h2, h3⟩ := syncGo_spec now store mem [] hnd hready
  refine ⟨mem2, ?_, h2, h3⟩
  rw [syncWithStorage, h1]
  simp

theorem syncWithStorage_monotone_witness :
    ∃ mem2,
      syncWithStorage [("a", eWithItem ⟨.num 1, 100⟩)]
          [("a", (⟨.num 2, 200⟩ : CacheItem))] 0 =
        .ok (mem2, ([("a", (⟨.num 2, 200⟩ : CacheItem))] : Store).filter
            (fun kv => !(kv.2.isExpired 0))) ∧
      (∀ k it e cur,
        alookup ([("a", (⟨.num 2, 200⟩ : CacheItem))] : Store) k = some it →
        it.isExpired 0 = false →
        alookup [("a", eWithItem ⟨.num 1, 100⟩)] k = some e →
        e.sourceValue = some cur →
        alookup mem2 k =
          some (if cur.expiresAt < it.expiresAt
                then { e with sourceValue := some it } else e)) ∧
      (∀ k, (∀ it, alookup ([("a", (⟨.num 2, 200⟩ : CacheItem))] : Store) k = some it →
          it.isExpired 0 = true) →
        alookup mem2 k = alookup [("a", eWithItem ⟨.num 1, 100⟩)] k) :=
  syncWithStorage_monotone [("a", eWithItem ⟨.num 1, 100⟩)]
    [("a", (⟨.num 2, 200⟩ : CacheItem))] 0 (by simp)
    (by
      intro k it e h1 h2 h3
      by_cases hk : "a" = k
      · subst hk
        have hv : alookup [("a", eWithItem (⟨.num 1, 100⟩ : CacheItem))] "a"
            = some (eWithItem ⟨.num 1, 100⟩) := rfl
        rw [hv] at h3
        injection h3 with h4
        subst h4
        refine ⟨rfl, rfl, ?_⟩
        simp [eWithItem, liveEntryNoItem]
      · rw [alookup_cons_ne _ _ _ _ hk] at h3
        simp [alookup] at h3)

/-- C7 counterexample: with an unexpired persisted item under a key whose
in-memory entry holds no current item, syncWithStorage throws a TypeError
reading expiresAt of undefined: nothing is pushed and the pruned map is
never written back, contrary to the per-key guarantees the claim states
unconditionally. -/
theorem syncWithStorage_undefined_current_counterexample :
    (CacheItem.mk (.num 1) 100).isExpired 0 = false ∧
    syncWithStorage [("k", liveEntryNoItem)] [("k", ⟨.num 1, 100⟩)] 0 =
      .error (.typeError "cannot read expiresAt of undefined") :=
  ⟨by decide, rfl⟩

end Swr
